import Mathlib

/-!
# Verification of the `rooted_tree` crate

Shallow embedding of `src/rooted_tree.rs`, `src/clone.rs` and
`src/report/mod.rs`, instantiated at the `DataNode` node implementation
(`src/test_data.rs`): identifiers are natural numbers, a node stores its id, an
optional parent id and a `Vec` of child ids.  The `HashMap<I, N>` of the store
is modelled as an association list with HashMap semantics (lookup / replace /
remove act on the first matching key; the map built by the API always has
distinct keys).  Recursive traversals, which in Rust recurse through the heap
map, take an explicit fuel argument; fuel exhaustion yields the same value as
a Rust panic / divergence marker (`none` for `Option`-valued functions, `[]`
for list-valued ones) and every concrete evaluation below is run with ample
fuel.
-/

namespace RootedTreeRs

/-- `DataNode` from `src/test_data.rs`: id, optional parent id, `Vec` of
child ids (insertion order). -/
structure DNode where
  id : Nat
  parent_id : Option Nat
  child_ids : List Nat
deriving DecidableEq, Repr

/-- `DataNode::new(id)`. -/
def DNode.new (id : Nat) : DNode := ⟨id, none, []⟩

/-- `DataNode::set_parent_id`. -/
def DNode.setParentId (n : DNode) (p : Nat) : DNode :=
  { n with parent_id := some p }

/-- `DataNode::add_child_id`: appends, deduplicating. -/
def DNode.addChildId (n : DNode) (c : Nat) : DNode :=
  if n.child_ids.contains c then n else { n with child_ids := n.child_ids ++ [c] }

/-- `DataNode::remove_child_id`: `retain(|id| id != child_id)`. -/
def DNode.removeChildId (n : DNode) (c : Nat) : DNode :=
  { n with child_ids := n.child_ids.filter (fun x => x ≠ c) }

/-- Association-list model of `HashMap<I, N>`: `get`. -/
def alGet : List (Nat × DNode) → Nat → Option DNode
  | [], _ => none
  | (k, v) :: rest, id => if k = id then some v else alGet rest id

/-- `HashMap::insert`: replace the entry if the key is present, else add. -/
def alInsert : List (Nat × DNode) → Nat → DNode → List (Nat × DNode)
  | [], k, v => [(k, v)]
  | (k', v') :: rest, k, v =>
    if k' = k then (k, v) :: rest else (k', v') :: alInsert rest k v

/-- `HashMap::remove`: returns the removed value and the remaining map. -/
def alRemove : List (Nat × DNode) → Nat → Option DNode × List (Nat × DNode)
  | [], _ => (none, [])
  | (k', v') :: rest, k =>
    if k' = k then (some v', rest)
    else
      let r := alRemove rest k
      (r.1, (k', v') :: r.2)

/-- Update the (first) entry at a key in place, mirroring mutation through a
`&mut` reference obtained from the map. -/
def alModify : List (Nat × DNode) → Nat → (DNode → DNode) → List (Nat × DNode)
  | [], _, _ => []
  | (k', v') :: rest, k, f =>
    if k' = k then (k', f v') :: rest else (k', v') :: alModify rest k f

/-- `RootedTree` from `src/rooted_tree.rs`. -/
structure RootedTree where
  root_node : Option DNode
  child_nodes : List (Nat × DNode)
deriving DecidableEq, Repr

/-- `RootedTree::new()`. -/
def RootedTree.new : RootedTree := ⟨none, []⟩

/-- The error enum from `src/lib.rs` (report formatting errors cannot occur in
the embedding and are omitted). -/
inductive Error where
  | RootNodeAlreadyExists
  | ParentNodeDoesNotExist
  | NodeDoesNotExist
  | ParentNodeDoesNotContainChild
  | ChildNodeHasNoParent
  | RootNodeHasParent
deriving DecidableEq, Repr

/-- `RootedTree::get_node`: the child map first, then the root. -/
def RootedTree.getNode (t : RootedTree) (id : Nat) : Option DNode :=
  match alGet t.child_nodes id with
  | some n => some n
  | none =>
    match t.root_node with
    | some r => if r.id = id then some r else none
    | none => none

/-- Mutation through `get_mut_node`: apply `f` to the node found at `id`
(child map first, then root); no-op when the id is absent. -/
def RootedTree.modifyNode (t : RootedTree) (id : Nat) (f : DNode → DNode) :
    RootedTree :=
  if (alGet t.child_nodes id).isSome then
    { t with child_nodes := alModify t.child_nodes id f }
  else
    match t.root_node with
    | some r => if r.id = id then { t with root_node := some (f r) } else t
    | none => t

/-- `RootedTree::add_node`, as a state-passing function: the returned tree is
the store after the call (unchanged when an error is returned). -/
def RootedTree.addNode (t : RootedTree) (parent_id : Option Nat) (node : DNode) :
    RootedTree × Option Error :=
  if parent_id.isNone ∧ t.root_node.isSome then
    (t, some .RootNodeAlreadyExists)
  else
    match parent_id with
    | some pid =>
      if (t.getNode pid).isSome then
        let t1 := t.modifyNode pid (fun p => p.addChildId node.id)
        let node1 := node.setParentId pid
        ({ t1 with child_nodes := alInsert t1.child_nodes node.id node1 }, none)
      else
        (t, some .ParentNodeDoesNotExist)
    | none =>
      if node.parent_id.isSome then
        (t, some .RootNodeHasParent)
      else
        ({ t with root_node := some node }, none)

/-- `RootedTree::remove_node`.  Note the source: when `id` is not a key of the
child map the method unconditionally executes `self.root_node.take()`, without
comparing `id` with the root's id. -/
def RootedTree.removeNode (t : RootedTree) (id : Nat) : Option DNode × RootedTree :=
  match alRemove t.child_nodes id with
  | (some node, rest) =>
    let t1 : RootedTree := { t with child_nodes := rest }
    let t2 :=
      match node.parent_id with
      | some pid => t1.modifyNode pid (fun p => p.removeChildId id)
      | none => t1
    (some node, t2)
  | (none, _) => (t.root_node, { t with root_node := none })

/-- `RootedTree::len`: `none` models the `unreachable!` panic on a store with
child nodes but no root. -/
def RootedTree.lenOpt (t : RootedTree) : Option Nat :=
  match t.root_node with
  | some _ => some (t.child_nodes.length + 1)
  | none => if t.child_nodes.length > 0 then none else some 0

/-- Keys of the child map, in map order (`child_nodes.keys()`). -/
def RootedTree.keys (t : RootedTree) : List Nat :=
  t.child_nodes.map Prod.fst

/-- `RootedTree::list_child_ids_with_lvl` (pre-order bounded descendant
collection), with fuel for the recursion through the map.  For the root id
with no level bound the source short-circuits to the full key set of the
child map. -/
def RootedTree.listChildIdsWithLvl (t : RootedTree) :
    Nat → Nat → Option Nat → List Nat
  | 0, _, _ => []
  | fuel + 1, id, lvl =>
    if lvl = some 0 then []
    else
      match t.root_node with
      | some r =>
        if r.id = id then
          match lvl with
          | none => t.keys
          | some _ =>
            r.child_ids.flatMap (fun c =>
              c :: t.listChildIdsWithLvl fuel c (lvl.map (fun l => l - 1)))
        else
          match alGet t.child_nodes id with
          | some n =>
            n.child_ids.flatMap (fun c =>
              c :: t.listChildIdsWithLvl fuel c (lvl.map (fun l => l - 1)))
          | none => []
      | none =>
        match alGet t.child_nodes id with
        | some n =>
          n.child_ids.flatMap (fun c =>
            c :: t.listChildIdsWithLvl fuel c (lvl.map (fun l => l - 1)))
        | none => []

/-- `RootedTree::list_parent_ids_with_lvl` (bounded upward traversal), with
fuel for the recursion through the map. -/
def RootedTree.listParentIdsWithLvl (t : RootedTree) :
    Nat → Nat → Option Nat → List Nat
  | 0, _, _ => []
  | fuel + 1, id, lvl =>
    if lvl = some 0 then []
    else
      let out : List Nat :=
        match alGet t.child_nodes id with
        | some n =>
          match n.parent_id with
          | some pid =>
            pid :: t.listParentIdsWithLvl fuel pid (lvl.map (fun l => l - 1))
          | none => []
        | none => []
      match t.root_node with
      | some r =>
        if r.id = id then
          out ++ (match r.parent_id with
                  | some p => [p]
                  | none => [])
        else out
      | none => out

/-- `RootedTree::clone_from_with_lvl` from `src/clone.rs`. -/
def RootedTree.cloneFromWithLvl (t : RootedTree) (id : Nat) (lvl : Option Nat)
    (fuel : Nat) : Option RootedTree :=
  let middle : Option RootedTree :=
    let children := t.listChildIdsWithLvl fuel id lvl
    let subRoot : Option DNode :=
      match t.root_node with
      | some r => if r.id = id ∧ lvl.isSome then t.root_node else alGet t.child_nodes id
      | none => alGet t.child_nodes id
    let subMap : List (Nat × DNode) :=
      children.foldl
        (fun m c =>
          match alGet t.child_nodes c with
          | some n => alInsert m c n
          | none => m)
        []
    some ⟨subRoot, subMap⟩
  match t.root_node with
  | some r => if r.id = id ∧ lvl = none then some t else middle
  | none => middle

/-- `RootedTree::clone_from`. -/
def RootedTree.cloneFrom (t : RootedTree) (id : Nat) (fuel : Nat) :
    Option RootedTree :=
  t.cloneFromWithLvl id none fuel

/-! ## Report engine (`src/report/mod.rs`, `src/report/lvl_string.rs`) -/

/-- `ChildWrap` (default `Bottom`). -/
inductive ChildWrap where
  | Top
  | Bottom
deriving DecidableEq, Repr

/-- `Config` from `src/report/mod.rs`; `select_node` is
`(node_id, max_lvl_around_node)`. -/
structure Config where
  max_children : Option Nat := none
  child_wrap : ChildWrap := ChildWrap.Bottom
  select_node : Option (Nat × Nat) := none

/-- `Meta` from `src/report/mod.rs`. -/
structure Meta where
  select_nodes : List Nat := []

/-- `LvlChar::real_len(delta, len)`. -/
def realLen (delta : Int) (len : Nat) : Nat :=
  if delta.natAbs ≥ len then 0 else (Int.ofNat len + delta).toNat

/-- `str::repeat`. -/
def strRepeat (s : String) (n : Nat) : String :=
  String.join (List.replicate n s)

/-- The connector glyph enum `LvlChar`. -/
inductive LvlChar where
  | Space (len : Nat)
  | SolidBar (len : Nat)
  | SolidAngle (len : Nat)
  | SolidDashAngle (len : Nat)
  | SolidCross (len : Nat)
  | SolidDashCross (len : Nat)
  | DashBar (len : Nat)
  | Empty
deriving DecidableEq, Repr

/-- `Display for LvlChar`. -/
def LvlChar.render : LvlChar → String
  | Space len => "    " ++ strRepeat " " (realLen (-1) len)
  | SolidBar len => " │  " ++ strRepeat " " (realLen (-1) len)
  | SolidAngle len => " └──" ++ strRepeat "─" (realLen (-1) len)
  | SolidDashAngle len => " └╌╌╌╌╌╌" ++ strRepeat "╌" (realLen 3 len)
  | SolidCross len => " ├──" ++ strRepeat "─" (realLen (-1) len)
  | SolidDashCross len => " ├╌╌╌╌╌╌" ++ strRepeat "╌" (realLen 3 len)
  | DashBar len => " ╎  " ++ strRepeat " " (realLen (-1) len)
  | Empty => ""

/-- `UnicodeWidthStr::width`, specialised to the strings produced by numeric
ids (ASCII digits are single display width). -/
def unicodeWidth (s : String) : Nat := s.length

/-- `get_parent_id_and_len`. -/
def getParentIdAndLen (n : DNode) : Option Nat × Nat :=
  match n.parent_id with
  | some pid => (some pid, unicodeWidth (Nat.repr pid))
  | none => (none, 0)

/-- `compute_prefixes`: every glyph except the last position, whose rendering
is replaced by the terminal suffix. -/
def computePrefixes (lvl_prefixes : List LvlChar) (suffix : String) : String :=
  String.join ((lvl_prefixes.dropLast).map LvlChar.render) ++ suffix

/-- The inner `loop` of the selection-aware truncation in `format_node`
(lines 157–178 of `src/report/mod.rs`): try each selection-path id in order;
on the first one present among the children at index `k`, compute
`k - max_child/2` in `usize` arithmetic.  `none` models the panic raised when
`k < max_child/2` (subtraction overflow in a debug build, out-of-range slice
start in a release build). -/
def selectWrapLoop (max_child : Nat) (vec_ids : List Nat) :
    List Nat → Option (List Nat × Bool)
  | [] => some (vec_ids, false)
  | s :: rest =>
    match List.findIdx? (fun x => x = s) vec_ids with
    | some k =>
      if k < max_child / 2 then none
      else if k - max_child / 2 = 0 then some (vec_ids, false)
      else some (vec_ids.drop (k - max_child / 2), true)
    | none => selectWrapLoop max_child vec_ids rest

/-- The "wrap top" step of `format_node` (lines 154–187): returns the possibly
re-sliced child list and the `add_wrap_top` flag (whether a leading elision
marker is emitted); `none` models a panic. -/
def wrapTop (config : Config) (meta : Meta) (vec_ids : List Nat) :
    Option (List Nat × Bool) :=
  match config.max_children with
  | some max_child =>
    if vec_ids.length > max_child then
      if meta.select_nodes ≠ [] then
        selectWrapLoop max_child vec_ids meta.select_nodes
      else
        match config.child_wrap with
        | ChildWrap.Top => some (vec_ids.drop max_child, true)
        | ChildWrap.Bottom => some (vec_ids, false)
    else some (vec_ids, false)
  | none => some (vec_ids, false)

/-- The child loop of `format_node` (lines 199–245 of `src/report/mod.rs`):
per-child bottom-wrap check (emitting a trailing elision marker and
stopping), connector choice, and the dashed rendering of unresolved child
ids.  The recursive rendering of a resolved child is abstracted as `render`
(instantiated with `format_node` below). -/
def formatChildren (t : RootedTree) (config : Config)
    (render : DNode → List LvlChar → String → Option String)
    (lvl_prefixes : List LvlChar) (parent_len total : Nat) :
    Nat → List Nat → Option String
  | _, [] => some ""
  | index, child_id :: rest =>
    let bottomStop : Bool :=
      match config.max_children with
      | some max_child =>
        (config.child_wrap = ChildWrap.Bottom || config.select_node.isSome) &&
          index = max_child
      | none => false
    if bottomStop then
      let lp := lvl_prefixes ++ [LvlChar.DashBar parent_len, LvlChar.Empty]
      some ("\n" ++ computePrefixes lp "")
    else
      let current_end_branch := index = total - 1
      let lp :=
        if current_end_branch then lvl_prefixes ++ [LvlChar.Space parent_len]
        else lvl_prefixes ++ [LvlChar.SolidBar parent_len]
      let piece : Option String :=
        match t.getNode child_id with
        | some child =>
          let suffix :=
            if current_end_branch then (LvlChar.SolidAngle parent_len).render
            else (LvlChar.SolidCross parent_len).render
          render child lp suffix
        | none =>
          let suffix :=
            if current_end_branch then (LvlChar.SolidDashAngle parent_len).render
            else (LvlChar.SolidDashCross parent_len).render
          some ("\n" ++ computePrefixes lp suffix ++ " " ++ Nat.repr child_id)
      match piece with
      | none => none
      | some s =>
        match formatChildren t config render lvl_prefixes parent_len total
            (index + 1) rest with
        | none => none
        | some s' => some (s ++ s')

/-- `RootedTree::format_node`: renders one node line and recurses over its
(possibly truncated) children.  `none` models a panic or fuel exhaustion. -/
def formatNode (t : RootedTree) (config : Config) (meta : Meta) :
    Nat → DNode → List LvlChar → String → Option String
  | 0, _, _, _ => none
  | fuel + 1, node, lvl_prefixes, suffix =>
    let pfx := computePrefixes lvl_prefixes suffix
    let head0 := "\n" ++ pfx ++ " "
    let pl := getParentIdAndLen node
    let head1 :=
      match pl.1 with
      | some pid => head0 ++ Nat.repr pid ++ " ↜ "
      | none => head0
    let head2 := head1 ++ Nat.repr node.id
    match wrapTop config meta node.child_ids with
    | none => none
    | some (vec_ids, add_wrap_top) =>
      let head3 :=
        if add_wrap_top then
          let lp := lvl_prefixes ++ [LvlChar.DashBar pl.2, LvlChar.Empty]
          head2 ++ "\n" ++ computePrefixes lp ""
        else head2
      match formatChildren t config
          (fun child lp sfx => formatNode t config meta fuel child lp sfx)
          lvl_prefixes pl.2 vec_ids.length 0 vec_ids with
      | none => none
      | some body => some (head3 ++ body)

/-- `RootedTree::_report`. -/
def reportInner (t : RootedTree) (config : Config) (meta : Meta) (fuel : Nat) :
    Option String :=
  match t.root_node with
  | some root =>
    let body :=
      match (getParentIdAndLen root).1 with
      | some _ =>
        let len := (getParentIdAndLen root).2
        match formatNode t config meta fuel root [LvlChar.DashBar len] "" with
        | none => none
        | some s => some ("\n" ++ (LvlChar.DashBar 0).render ++ s)
      | none => formatNode t config meta fuel root [] ""
    match body with
    | none => none
    | some s => some (s ++ "\n")
  | none => some "\n"

/-- The window root chosen by windowed `report`: the last ancestor found by
`list_parent_ids_with_lvl(node_id, Some(sub_lvl))` where
`sub_lvl = lvl + 1 / 2`, or `node_id` itself. -/
def reportSubLvl (lvl : Nat) : Nat := lvl + 1 / 2

/-- The ancestor list used by windowed `report`. -/
def reportParentIds (t : RootedTree) (node_id lvl fuel : Nat) : List Nat :=
  t.listParentIdsWithLvl fuel node_id (some (reportSubLvl lvl))

/-- The window root chosen by windowed `report`. -/
def reportWindowRoot (t : RootedTree) (node_id lvl fuel : Nat) : Nat :=
  (reportParentIds t node_id lvl fuel).getLast?.getD node_id

/-- `RootedTree::report`. -/
def report (t : RootedTree) (config : Config) (fuel : Nat) : Option String :=
  match config.select_node with
  | some (node_id, lvl) =>
    let sub_lvl := reportSubLvl lvl
    let parent_ids := reportParentIds t node_id lvl fuel
    let root_id := reportWindowRoot t node_id lvl fuel
    (match t.cloneFromWithLvl root_id (some sub_lvl) fuel with
     | some temp =>
       reportInner temp config { select_nodes := node_id :: parent_ids } fuel
     | none => reportInner t config {} fuel)
  | none => reportInner t config {} fuel

/-! ## Auxiliary notions for stating the claims -/

/-- Node resolution shared by the traversals: the root when its id matches,
the child-map entry otherwise. -/
def RootedTree.resolveNode (t : RootedTree) (id : Nat) : Option DNode :=
  match t.root_node with
  | some r => if r.id = id then some r else alGet t.child_nodes id
  | none => alGet t.child_nodes id

/-- Maximum depth of the tree below `id`, measured along the same node
resolution as `list_child_ids_with_lvl` (fuel-bounded). -/
def RootedTree.heightBelow (t : RootedTree) : Nat → Nat → Nat
  | 0, _ => 0
  | fuel + 1, id =>
    match t.resolveNode id with
    | some n =>
      n.child_ids.foldr (fun c acc => max (1 + t.heightBelow fuel c) acc) 0
    | none => 0

/-- All nodes owned by the store (the root, if any, and the child-map
values). -/
def RootedTree.storedNodes (t : RootedTree) : List DNode :=
  (match t.root_node with
   | some r => [r]
   | none => []) ++ t.child_nodes.map Prod.snd

/-- Data-model invariant (§3 of the spec): every recorded child id of every
stored node is a key of the child map. -/
def RootedTree.ChildClosed (t : RootedTree) : Prop :=
  ∀ n ∈ t.storedNodes, ∀ c ∈ n.child_ids, c ∈ t.keys

/-- Data-model invariant (§3 of the spec): the root's id is not reused as a
child-map key and the root is not recorded as anyone's child. -/
def RootedTree.RootSeparate (t : RootedTree) (r : DNode) : Prop :=
  r.id ∉ t.keys ∧ ∀ n ∈ t.storedNodes, r.id ∉ n.child_ids

/-- Data-model invariant (§3 of the spec): every child-map key is reachable
from the root by the downward traversal, within the height bound. -/
def RootedTree.KeysReachable (t : RootedTree) (r : DNode) (fuel : Nat) : Prop :=
  ∀ k ∈ t.keys,
    k ∈ t.listChildIdsWithLvl fuel r.id (some (t.heightBelow fuel r.id))

instance (t : RootedTree) : Decidable t.ChildClosed :=
  inferInstanceAs
    (Decidable (∀ n ∈ t.storedNodes, ∀ c ∈ n.child_ids, c ∈ t.keys))

instance (t : RootedTree) (r : DNode) : Decidable (t.RootSeparate r) :=
  inferInstanceAs
    (Decidable (r.id ∉ t.keys ∧ ∀ n ∈ t.storedNodes, r.id ∉ n.child_ids))

instance (t : RootedTree) (r : DNode) (fuel : Nat) :
    Decidable (t.KeysReachable r fuel) :=
  inferInstanceAs
    (Decidable (∀ k ∈ t.keys,
      k ∈ t.listChildIdsWithLvl fuel r.id (some (t.heightBelow fuel r.id))))

/-! ## Concrete stores used by the claims -/

/-- Successful insertion, discarding the (absent) error. -/
def addOk (t : RootedTree) (p : Option Nat) (n : DNode) : RootedTree :=
  (t.addNode p n).1

/-- Root `1` with the five children `2`, `3`, `4`, `5`, `6` inserted under it
in that order. -/
def tree16 : RootedTree :=
  addOk (addOk (addOk (addOk (addOk (addOk RootedTree.new none (DNode.new 1))
    (some 1) (DNode.new 2)) (some 1) (DNode.new 3)) (some 1) (DNode.new 4))
    (some 1) (DNode.new 5)) (some 1) (DNode.new 6)

/-- The chain `1 ← 2 ← 3` (root `1`, child `2`, grandchild `3`). -/
def chain3 : RootedTree :=
  addOk (addOk (addOk RootedTree.new none (DNode.new 1)) (some 1) (DNode.new 2))
    (some 2) (DNode.new 3)

/-- Root `1` with the single child `2`. -/
def tree12 : RootedTree :=
  addOk (addOk RootedTree.new none (DNode.new 1)) (some 1) (DNode.new 2)

/-- A store built through the public interface whose root records the
unresolved child id `2` (no node `2` is ever inserted). -/
def treeUnresolved : RootedTree :=
  addOk RootedTree.new none ⟨1, none, [2]⟩

/-! ## Claims -/

/-- C8: rendering the tree with root `1` and children `2`,`3`,`4`,`5`,`6`
(inserted in that order) under `max_children = 2`, `child_wrap = Bottom`
outputs node `1`'s line, then exactly the two child lines for `2` and `3`,
then exactly one elision marker line (` ╎  `), with `4`, `5`, `6` absent from
the output. -/
theorem c8_bottom_wrap_concrete :
    report tree16 { max_children := some 2, child_wrap := ChildWrap.Bottom } 20 =
      some "\n 1\n ├── 1 ↜ 2\n ├── 1 ↜ 3\n ╎  \n" ∧
    (("\n 1\n ├── 1 ↜ 2\n ├── 1 ↜ 3\n ╎  \n").data.splitOn '\n').map String.mk =
      ["", " 1", " ├── 1 ↜ 2", " ├── 1 ↜ 3", " ╎  ", ""] ∧
    '4' ∉ "\n 1\n ├── 1 ↜ 2\n ├── 1 ↜ 3\n ╎  \n".data ∧
    '5' ∉ "\n 1\n ├── 1 ↜ 2\n ├── 1 ↜ 3\n ╎  \n".data ∧
    '6' ∉ "\n 1\n ├── 1 ↜ 2\n ├── 1 ↜ 3\n ╎  \n".data := by
  decide

/-- C4 counterexample: on root `1` with children `2`..`6`, `max_children = 2`,
`child_wrap = Top`, no selection, the rendered output does contain an elision
marker line (` ╎  `) before the remaining block, and the remaining block is
the three children `4`,`5`,`6` (more than the budget) — refuting both the
"no elision marker" part and the "beyond the budget" part of the claim. -/
theorem c4_top_wrap_counterexample :
    report tree16 { max_children := some 2, child_wrap := ChildWrap.Top } 20 =
      some "\n 1\n ╎  \n ├── 1 ↜ 4\n ├── 1 ↜ 5\n └── 1 ↜ 6\n" ∧
    (("\n 1\n ╎  \n ├── 1 ↜ 4\n ├── 1 ↜ 5\n └── 1 ↜ 6\n").data.splitOn '\n').map
        String.mk =
      ["", " 1", " ╎  ", " ├── 1 ↜ 4", " ├── 1 ↜ 5", " └── 1 ↜ 6", ""] := by
  decide

/-- C4 (amended): with no selection metadata, `child_wrap = Top` and strictly
more children than `max_children = m`, the truncation step of `format_node`
drops the first `m` children, keeps the remaining tail (which may still
exceed the budget), and sets the `add_wrap_top` flag — so a leading elision
marker line is emitted before the remaining rendered block. -/
theorem c4_top_wrap_amended (config : Config) (meta : Meta) (ids : List Nat)
    (m : Nat) (hmax : config.max_children = some m)
    (hwrap : config.child_wrap = ChildWrap.Top)
    (hmeta : meta.select_nodes = []) (hlen : m < ids.length) :
    wrapTop config meta ids = some (ids.drop m, true) := by
  simp [wrapTop, hmax, hwrap, hmeta, hlen]

/-- C4 witness: the amended truncation behaviour at the concrete children
list `[2,3,4,5,6]` with budget `2`. -/
theorem c4_top_wrap_amended_witness :
    2 < ([2, 3, 4, 5, 6] : List Nat).length ∧
    wrapTop { max_children := some 2, child_wrap := ChildWrap.Top }
      { select_nodes := [] } [2, 3, 4, 5, 6] = some ([4, 5, 6], true) :=
  ⟨by decide,
   c4_top_wrap_amended _ _ _ 2 rfl rfl rfl (by decide)⟩

/-- C1: in windowed mode the source computes `sub_lvl = lvl + 1 / 2`, which
by operator precedence is `lvl + (1/2) = lvl` — the full radius, not
`radius / 2`.  On the chain `1 ← 2 ← 3` with target `3` and radius `1` the
code walks `1` hop up and chooses window root `2`, although no ancestor is
reachable within `1 / 2 = 0` hops, so the claim requires the window root to
be the target `3` itself. -/
theorem c1_window_root_bug :
    reportSubLvl 1 = 1 ∧
    chain3.listParentIdsWithLvl 20 3 (some (1 / 2)) = [] ∧
    reportWindowRoot chain3 3 1 20 = 2 ∧
    reportWindowRoot chain3 3 1 20 ≠ 3 := by
  decide

/-- C2: the recentering start index is computed as `k - max_children/2` in
`usize` arithmetic with no clamp; when the selection-path id sits at local
index `k = 0` among the children and `max_children = 4`, the subtraction
`0 - 2` overflows and the rendering panics (modelled as `none`).  The same
configuration with target `4` (local index `2`) renders fine, so the `none`
is the panic, not fuel exhaustion. -/
theorem c2_recenter_underflow_panic :
    selectWrapLoop 4 [2, 3, 4, 5, 6] [2, 1] = none ∧
    report tree16 { max_children := some 4, select_node := some (2, 1) } 30 =
      none ∧
    (report tree16 { max_children := some 4, select_node := some (4, 1) } 30).isSome =
      true := by
  decide

/-- C3: `remove_node` on an id that is neither a child-map key nor the root's
id does not return `None` and does not leave the store unchanged: the source
unconditionally executes `self.root_node.take()` when the child map misses,
so on the chain `1 ← 2 ← 3` removing the unknown id `99` returns the root
node `1` and leaves a store with child nodes but no root — on which the
code's own `len()` hits its `unreachable!` assertion (modelled as `none`). -/
theorem c3_remove_unknown_takes_root :
    (chain3.removeNode 99).1 = some ⟨1, none, [2]⟩ ∧
    (chain3.removeNode 99).2.root_node = none ∧
    (chain3.removeNode 99).2.child_nodes = chain3.child_nodes ∧
    (chain3.removeNode 99).2.lenOpt = none := by
  decide

/-- C5: `add_node` fails with `RootNodeAlreadyExists` whenever `parent_id` is
absent and a root already exists; with `RootNodeHasParent` whenever
`parent_id` is absent, no root exists, and the node's own recorded parent is
`Some`; with `ParentNodeDoesNotExist` whenever `parent_id` is present but no
node with that id exists in the store; and in every failure case the
returned store is the input store, unchanged. -/
theorem c5_add_node_failure_cases (t : RootedTree) (node : DNode) :
    (t.root_node.isSome = true →
      t.addNode none node = (t, some Error.RootNodeAlreadyExists)) ∧
    (t.root_node = none → node.parent_id.isSome = true →
      t.addNode none node = (t, some Error.RootNodeHasParent)) ∧
    (∀ pid, t.getNode pid = none →
      t.addNode (some pid) node = (t, some Error.ParentNodeDoesNotExist)) := by
  refine ⟨fun h1 => ?_, fun h2 h3 => ?_, fun pid h4 => ?_⟩
  · simp [RootedTree.addNode, h1]
  · simp [RootedTree.addNode, h2, h3]
  · simp [RootedTree.addNode, h4]

/-- C5 witness: the three failure cases at concrete stores. -/
theorem c5_add_node_failure_cases_witness :
    (chain3.root_node.isSome = true ∧
      chain3.addNode none (DNode.new 9) =
        (chain3, some Error.RootNodeAlreadyExists)) ∧
    (RootedTree.new.root_node = none ∧
      (DNode.mk 9 (some 5) []).parent_id.isSome = true ∧
      RootedTree.new.addNode none ⟨9, some 5, []⟩ =
        (RootedTree.new, some Error.RootNodeHasParent)) ∧
    (chain3.getNode 99 = none ∧
      chain3.addNode (some 99) (DNode.new 9) =
        (chain3, some Error.ParentNodeDoesNotExist)) :=
  ⟨⟨by decide, (c5_add_node_failure_cases chain3 (DNode.new 9)).1 (by decide)⟩,
   ⟨by decide, by decide,
    (c5_add_node_failure_cases RootedTree.new ⟨9, some 5, []⟩).2.1 (by decide)
      (by decide)⟩,
   ⟨by decide,
    (c5_add_node_failure_cases chain3 (DNode.new 9)).2.2 99 (by decide)⟩⟩

/-- C10: `clone_from` never returns `None`; and if `id` is neither the root's
id nor a child-map key, it returns `Some` of the empty store (no root node,
empty child map, `len() = 0`).  The Rust method takes `&self`, so the source
store is unchanged by construction; the embedding is pure. -/
theorem c10_clone_from_unknown (t : RootedTree) (id fuel : Nat)
    (hnot : t.getNode id = none) :
    (∀ (s : RootedTree) (j : Nat) (lvl : Option Nat) (f : Nat),
      (s.cloneFromWithLvl j lvl f).isSome = true) ∧
    (∀ lvl, t.cloneFromWithLvl id lvl fuel = some RootedTree.new) ∧
    t.cloneFrom id fuel = some RootedTree.new ∧
    RootedTree.new.lenOpt = some 0 := by
  have hget : alGet t.child_nodes id = none := by
    unfold RootedTree.getNode at hnot
    cases h : alGet t.child_nodes id with
    | none => rfl
    | some n => rw [h] at hnot; exact absurd hnot (by simp)
  have hrootne : ∀ r, t.root_node = some r → ¬ r.id = id := by
    intro r hr hid
    unfold RootedTree.getNode at hnot
    rw [hget, hr] at hnot
    simp [hid] at hnot
  have hchildren : ∀ lvl, t.listChildIdsWithLvl fuel id lvl = [] := by
    intro lvl
    cases fuel with
    | zero => rfl
    | succ f =>
      unfold RootedTree.listChildIdsWithLvl
      cases hr : t.root_node with
      | none => simp [hget]
      | some r => simp [hget, hrootne r hr]
  have hmiddle : ∀ lvl, t.cloneFromWithLvl id lvl fuel = some RootedTree.new := by
    intro lvl
    unfold RootedTree.cloneFromWithLvl
    cases hr : t.root_node with
    | none => simp [hchildren, hget, RootedTree.new]
    | some r => simp [hchildren, hget, hrootne r hr, RootedTree.new]
  refine ⟨?_, hmiddle, hmiddle none, rfl⟩
  intro s j lvl f
  unfold RootedTree.cloneFromWithLvl
  cases s.root_node with
  | none => simp
  | some r =>
    by_cases h : r.id = j ∧ lvl = none
    · simp [h]
    · simp [h]

/-- C10 witness: cloning from the unknown id `99` of the chain `1 ← 2 ← 3`
yields the empty store. -/
theorem c10_clone_from_unknown_witness :
    chain3.getNode 99 = none ∧
    chain3.cloneFrom 99 7 = some RootedTree.new ∧
    RootedTree.new.lenOpt = some 0 :=
  ⟨by decide, (c10_clone_from_unknown chain3 99 7 (by decide)).2.2.1,
   (c10_clone_from_unknown chain3 99 7 (by decide)).2.2.2⟩

/-! ### Association-list lemmas (shared) -/

theorem alGet_alInsert_self (m : List (Nat × DNode)) (k : Nat) (v : DNode) :
    alGet (alInsert m k v) k = some v := by
  induction m with
  | nil => simp [alInsert, alGet]
  | cons hd tl ih =>
    by_cases h : hd.1 = k
    · simp [alInsert, alGet, h]
    · simpa [alInsert, alGet, h] using ih

theorem alGet_alInsert_ne (m : List (Nat × DNode)) (k k' : Nat) (v : DNode)
    (h : k' ≠ k) : alGet (alInsert m k v) k' = alGet m k' := by
  induction m with
  | nil => simp [alInsert, alGet, h, Ne.symm h]
  | cons hd tl ih =>
    by_cases hh : hd.1 = k
    · simp [alInsert, alGet, hh, Ne.symm h, h]
    · by_cases hh' : hd.1 = k'
      · simp [alInsert, alGet, hh, hh', h]
      · simpa [alInsert, alGet, hh, hh'] using ih

theorem alGet_alModify_self (m : List (Nat × DNode)) (k : Nat)
    (f : DNode → DNode) : alGet (alModify m k f) k = (alGet m k).map f := by
  induction m with
  | nil => simp [alModify, alGet]
  | cons hd tl ih =>
    by_cases h : hd.1 = k
    · simp [alModify, alGet, h]
    · simpa [alModify, alGet, h] using ih

theorem alGet_alModify_ne (m : List (Nat × DNode)) (k k' : Nat)
    (f : DNode → DNode) (h : k' ≠ k) :
    alGet (alModify m k f) k' = alGet m k' := by
  induction m with
  | nil => simp [alModify, alGet]
  | cons hd tl ih =>
    by_cases hh : hd.1 = k
    · simp [alModify, alGet, hh, Ne.symm h]
    · by_cases hh' : hd.1 = k'
      · simp [alModify, alGet, hh, hh', h]
      · simpa [alModify, alGet, hh, hh'] using ih

theorem keys_alModify (m : List (Nat × DNode)) (k : Nat) (f : DNode → DNode) :
    (alModify m k f).map Prod.fst = m.map Prod.fst := by
  induction m with
  | nil => rfl
  | cons hd tl ih =>
    by_cases h : hd.1 = k
    · simp [alModify, h]
    · simp [alModify, h, ih]

theorem DNode.id_addChildId (n : DNode) (c : Nat) : (n.addChildId c).id = n.id := by
  unfold DNode.addChildId
  by_cases h : c ∈ n.child_ids <;> simp [h]

theorem DNode.mem_addChildId (n : DNode) (c : Nat) :
    c ∈ (n.addChildId c).child_ids := by
  unfold DNode.addChildId
  by_cases h : c ∈ n.child_ids <;> simp [h]

theorem getNode_modifyNode_self (t : RootedTree) (p : Nat) (np : DNode)
    (f : DNode → DNode) (hpres : ∀ d, (f d).id = d.id)
    (hget : t.getNode p = some np) :
    (t.modifyNode p f).getNode p = some (f np) := by
  unfold RootedTree.getNode at hget
  unfold RootedTree.modifyNode RootedTree.getNode
  cases hmp : alGet t.child_nodes p with
  | some o =>
    rw [hmp] at hget
    simp only [Option.some.injEq] at hget
    subst hget
    simp [alGet_alModify_self, hmp]
  | none =>
    rw [hmp] at hget
    cases hr : t.root_node with
    | none => rw [hr] at hget; simp at hget
    | some r =>
      rw [hr] at hget
      by_cases hrid : r.id = p
      · simp only [hrid, if_true] at hget
        simp only [Option.some.injEq] at hget
        subst hget
        simp [hmp, hr, hrid, hpres]
      · simp [hrid] at hget

theorem getNode_modifyNode_ne (t : RootedTree) (p q : Nat)
    (f : DNode → DNode) (hpres : ∀ d, (f d).id = d.id) (h : q ≠ p) :
    (t.modifyNode p f).getNode q = t.getNode q := by
  unfold RootedTree.modifyNode RootedTree.getNode
  cases hmp : alGet t.child_nodes p with
  | some o => simp [hmp, alGet_alModify_ne t.child_nodes p q f h]
  | none =>
    cases hr : t.root_node with
    | none => simp [hmp, hr]
    | some r =>
      by_cases hrid : r.id = p
      · simp [hmp, hr, hrid, hpres, h, Ne.symm h]
      · simp [hmp, hr, hrid]

theorem getNode_insert_ne (t : RootedTree) (x q : Nat) (v : DNode)
    (h : q ≠ x) :
    RootedTree.getNode ⟨t.root_node, alInsert t.child_nodes x v⟩ q =
      t.getNode q := by
  unfold RootedTree.getNode
  rw [alGet_alInsert_ne t.child_nodes x q v h]

/-- C9 counterexample: in the store with root `1` and child `2`, both `x = 2`
and the parent id `p = 2` are present, and `add_node(Some(2), node 2)`
succeeds — but the freshly inserted node overwrites the just-updated entry
for `p = x = 2`, so `p`'s stored child set does not gain `x`. -/
theorem c9_duplicate_insert_counterexample :
    (tree12.getNode 2).isSome = true ∧
    (tree12.addNode (some 2) (DNode.new 2)).2 = none ∧
    alGet (tree12.addNode (some 2) (DNode.new 2)).1.child_nodes 2 =
      some ⟨2, some 2, []⟩ ∧
    2 ∉ (DNode.mk 2 (some 2) []).child_ids := by
  decide

/-- C9 (amended): for every store containing a node with id `x` and every
parent id `p` present in the store with `p ≠ x`, `add_node(Some(p), n)` with
`n.id() = x` succeeds without error; the new node (with its parent set to
`p`) silently overwrites any child-map entry keyed `x`; the stored node at
`p` gains `x` in its child set; and every node other than `p` and `x` is
unchanged — in particular a previous parent distinct from `x` and `p` still
lists `x`.  Duplicate identifiers are never rejected at the public
interface. -/
theorem c9_duplicate_insert_amended (t : RootedTree) (p x : Nat) (n : DNode)
    (hid : n.id = x) (hx : (t.getNode x).isSome = true)
    (hp : (t.getNode p).isSome = true) (hpx : p ≠ x) :
    (t.addNode (some p) n).2 = none ∧
    alGet (t.addNode (some p) n).1.child_nodes x = some (n.setParentId p) ∧
    (∃ np, (t.addNode (some p) n).1.getNode p = some np ∧ x ∈ np.child_ids) ∧
    (∀ q, q ≠ p → q ≠ x → (t.addNode (some p) n).1.getNode q = t.getNode q) := by
  obtain ⟨np, hnp⟩ := Option.isSome_iff_exists.mp hp
  have hpres : ∀ d, ((fun d => DNode.addChildId d n.id) d).id = d.id :=
    fun d => DNode.id_addChildId d n.id
  have hres :
      t.addNode (some p) n =
        (⟨(t.modifyNode p (fun d => d.addChildId n.id)).root_node,
          alInsert (t.modifyNode p (fun d => d.addChildId n.id)).child_nodes
            n.id (n.setParentId p)⟩, none) := by
    unfold RootedTree.addNode
    simp [hp]
  set t1 := t.modifyNode p (fun d => d.addChildId n.id) with ht1
  have hmk : t1 = RootedTree.mk t1.root_node t1.child_nodes := rfl
  rw [hres]
  refine ⟨rfl, ?_, ?_, ?_⟩
  · simpa [hid] using
      alGet_alInsert_self t1.child_nodes x (n.setParentId p)
  · refine ⟨np.addChildId n.id, ?_, by simpa [hid] using DNode.mem_addChildId np n.id⟩
    have hstep :
        RootedTree.getNode
          ⟨t1.root_node, alInsert t1.child_nodes n.id (n.setParentId p)⟩ p =
          t1.getNode p := by
      rw [hid]
      rw [hmk] at *
      exact getNode_insert_ne t1 x p (n.setParentId p) hpx
    rw [hstep, ht1]
    exact getNode_modifyNode_self t p np _ hpres hnp
  · intro q hqp hqx
    have hstep :
        RootedTree.getNode
          ⟨t1.root_node, alInsert t1.child_nodes n.id (n.setParentId p)⟩ q =
          t1.getNode q := by
      rw [hid]
      rw [hmk] at *
      exact getNode_insert_ne t1 x q (n.setParentId p) hqx
    rw [hstep, ht1]
    exact getNode_modifyNode_ne t p q _ hpres hqp

/-- C9 witness: re-inserting id `2` under the root `1` of the store that
already holds `2`. -/
theorem c9_duplicate_insert_amended_witness :
    ((tree12.getNode 2).isSome = true ∧ (tree12.getNode 1).isSome = true) ∧
    ((tree12.addNode (some 1) (DNode.new 2)).2 = none ∧
     alGet (tree12.addNode (some 1) (DNode.new 2)).1.child_nodes 2 =
       some ((DNode.new 2).setParentId 1) ∧
     (∃ np, (tree12.addNode (some 1) (DNode.new 2)).1.getNode 1 = some np ∧
        2 ∈ np.child_ids) ∧
     (∀ q, q ≠ 1 → q ≠ 2 →
        (tree12.addNode (some 1) (DNode.new 2)).1.getNode q = tree12.getNode q)) :=
  ⟨⟨by decide, by decide⟩,
   c9_duplicate_insert_amended tree12 1 2 (DNode.new 2) rfl (by decide)
     (by decide) (by decide)⟩

/-! ### Removal lemmas (shared) -/

theorem alRemove_fst (m : List (Nat × DNode)) (id : Nat) :
    (alRemove m id).1 = alGet m id := by
  induction m with
  | nil => rfl
  | cons hd tl ih =>
    by_cases h : hd.1 = id
    · simp [alRemove, alGet, h]
    · simpa [alRemove, alGet, h] using ih

theorem alRemove_snd_length (m : List (Nat × DNode)) (id : Nat) (n : DNode)
    (h : alGet m id = some n) : (alRemove m id).2.length + 1 = m.length := by
  induction m with
  | nil => simp [alGet] at h
  | cons hd tl ih =>
    by_cases hh : hd.1 = id
    · simp [alRemove, hh]
    · rw [alGet, if_neg hh] at h
      simpa [alRemove, hh] using ih h

theorem mem_keys_alRemove (m : List (Nat × DNode)) (id k : Nat) (h : k ≠ id) :
    (k ∈ (alRemove m id).2.map Prod.fst ↔ k ∈ m.map Prod.fst) := by
  induction m with
  | nil => simp [alRemove]
  | cons hd tl ih =>
    by_cases hh : hd.1 = id
    · simp [alRemove, hh, h]
    · simp [alRemove, hh, ih]

theorem keys_modifyNode (t : RootedTree) (p : Nat) (f : DNode → DNode) :
    (t.modifyNode p f).child_nodes.map Prod.fst =
      t.child_nodes.map Prod.fst := by
  unfold RootedTree.modifyNode
  by_cases h : (alGet t.child_nodes p).isSome
  · simp [h, keys_alModify]
  · cases hr : t.root_node with
    | none => simp [h, hr]
    | some r => by_cases hrid : r.id = p <;> simp [h, hr, hrid]

theorem root_isSome_modifyNode (t : RootedTree) (p : Nat) (f : DNode → DNode) :
    (t.modifyNode p f).root_node.isSome = t.root_node.isSome := by
  unfold RootedTree.modifyNode
  by_cases h : (alGet t.child_nodes p).isSome
  · simp [h]
  · cases hr : t.root_node with
    | none => simp [h, hr]
    | some r => by_cases hrid : r.id = p <;> simp [h, hr, hrid]

/-- C6: removing a non-leaf, non-root node of an invariant-satisfying store
(root present, the node keyed in the child map, the node not among its own
descendants) removes only that node's entry: every former descendant that was
a stored entry remains one, every other key is untouched, and `len()`
decreases by exactly one. -/
theorem c6_remove_non_cascading (t : RootedTree) (r n : DNode) (id fuel : Nat)
    (hroot : t.root_node = some r)
    (hmem : alGet t.child_nodes id = some n)
    (hnonleaf : n.child_ids ≠ [])
    (hacyc : id ∉ t.listChildIdsWithLvl fuel id none) :
    (∀ d ∈ t.listChildIdsWithLvl fuel id none, d ∈ t.keys →
       d ∈ (t.removeNode id).2.keys) ∧
    (∀ k, k ≠ id → (k ∈ (t.removeNode id).2.keys ↔ k ∈ t.keys)) ∧
    t.lenOpt = some (t.child_nodes.length + 1) ∧
    (t.removeNode id).2.lenOpt = some t.child_nodes.length := by
  have hsplit : alRemove t.child_nodes id =
      (some n, (alRemove t.child_nodes id).2) := by
    rw [← alRemove_fst t.child_nodes id] at hmem
    rw [← hmem]
  set rest := (alRemove t.child_nodes id).2 with hrest
  have hres : (t.removeNode id).2 =
      (match n.parent_id with
       | some pid =>
         RootedTree.modifyNode ⟨t.root_node, rest⟩ pid
           (fun p => p.removeChildId id)
       | none => (⟨t.root_node, rest⟩ : RootedTree)) := by
    unfold RootedTree.removeNode
    rw [hsplit]
  have hkeys : (t.removeNode id).2.keys = rest.map Prod.fst := by
    rw [hres]
    cases n.parent_id with
    | some pid =>
      simpa [RootedTree.keys] using
        keys_modifyNode ⟨t.root_node, rest⟩ pid (fun p => p.removeChildId id)
    | none => rfl
  have hrootS : (t.removeNode id).2.root_node.isSome = true := by
    rw [hres]
    cases n.parent_id with
    | some pid =>
      rw [root_isSome_modifyNode ⟨t.root_node, rest⟩ pid
        (fun p => p.removeChildId id)]
      simp [hroot]
    | none => simp [hroot]
  have hlen : rest.length + 1 = t.child_nodes.length :=
    alRemove_snd_length t.child_nodes id n hmem
  have hframe : ∀ k, k ≠ id → (k ∈ (t.removeNode id).2.keys ↔ k ∈ t.keys) := by
    intro k hk
    rw [hkeys]
    exact mem_keys_alRemove t.child_nodes id k hk
  refine ⟨?_, hframe, ?_, ?_⟩
  · intro d hd hdk
    have hdne : d ≠ id := fun he => hacyc (he ▸ hd)
    exact (hframe d hdne).mpr hdk
  · simp [RootedTree.lenOpt, hroot]
  · obtain ⟨r', hr'⟩ := Option.isSome_iff_exists.mp hrootS
    have hlen2 : (t.removeNode id).2.child_nodes.length = rest.length := by
      have := congrArg List.length hkeys
      simpa [RootedTree.keys] using this
    simp [RootedTree.lenOpt, hr', hlen2, hlen]

/-- C6 witness: removing the internal node `2` (child `3`) from the chain
`1 ← 2 ← 3`. -/
theorem c6_remove_non_cascading_witness :
    (chain3.root_node = some ⟨1, none, [2]⟩ ∧
     alGet chain3.child_nodes 2 = some ⟨2, some 1, [3]⟩ ∧
     (⟨2, some 1, [3]⟩ : DNode).child_ids ≠ [] ∧
     2 ∉ chain3.listChildIdsWithLvl 10 2 none) ∧
    ((∀ d ∈ chain3.listChildIdsWithLvl 10 2 none, d ∈ chain3.keys →
        d ∈ (chain3.removeNode 2).2.keys) ∧
     (∀ k, k ≠ 2 → (k ∈ (chain3.removeNode 2).2.keys ↔ k ∈ chain3.keys)) ∧
     chain3.lenOpt = some (chain3.child_nodes.length + 1) ∧
     (chain3.removeNode 2).2.lenOpt = some chain3.child_nodes.length) :=
  ⟨⟨by decide, by decide, by decide, by decide⟩,
   c6_remove_non_cascading chain3 ⟨1, none, [2]⟩ ⟨2, some 1, [3]⟩ 2 10
     (by decide) (by decide) (by decide) (by decide)⟩

/-! ### Traversal lemmas (shared) -/

theorem mem_snd_of_alGet (m : List (Nat × DNode)) (id : Nat) (nd : DNode)
    (h : alGet m id = some nd) : nd ∈ m.map Prod.snd := by
  induction m with
  | nil => simp [alGet] at h
  | cons hd tl ih =>
    by_cases hh : hd.1 = id
    · rw [alGet, if_pos hh] at h
      injection h with h
      simp [h]
    · rw [alGet, if_neg hh] at h
      simp [ih h]

theorem stored_of_alGet (t : RootedTree) (id : Nat) (nd : DNode)
    (h : alGet t.child_nodes id = some nd) : nd ∈ t.storedNodes := by
  unfold RootedTree.storedNodes
  cases t.root_node <;> simp [mem_snd_of_alGet t.child_nodes id nd h]

theorem root_stored (t : RootedTree) (r : DNode) (h : t.root_node = some r) :
    r ∈ t.storedNodes := by
  unfold RootedTree.storedNodes
  rw [h]
  simp

theorem flatMap_congr_mem (l : List Nat) (f g : Nat → List Nat)
    (h : ∀ a ∈ l, f a = g a) : l.flatMap f = l.flatMap g := by
  induction l with
  | nil => rfl
  | cons hd tl ih =>
    simp only [List.flatMap_cons]
    rw [h hd (by simp), ih (fun a ha => h a (by simp [ha]))]

theorem le_foldr_height (h : Nat → Nat) (l : List Nat) (c : Nat) (hc : c ∈ l) :
    1 + h c ≤ l.foldr (fun c acc => max (1 + h c) acc) 0 := by
  induction l with
  | nil => simp at hc
  | cons hd tl ih =>
    rcases List.mem_cons.mp hc with h1 | h2
    · subst h1
      exact le_max_left _ _
    · exact le_trans (ih h2) (le_max_right _ _)

theorem foldr_height_pos (h : Nat → Nat) (l : List Nat) (hl : l ≠ []) :
    1 ≤ l.foldr (fun c acc => max (1 + h c) acc) 0 := by
  cases l with
  | nil => exact absurd rfl hl
  | cons hd tl =>
    have := le_foldr_height h (hd :: tl) hd (by simp)
    omega

theorem list_subset_keys (t : RootedTree) (hc : t.ChildClosed) :
    ∀ fuel id lvl x, x ∈ t.listChildIdsWithLvl fuel id lvl → x ∈ t.keys := by
  intro fuel
  induction fuel with
  | zero =>
    intro id lvl x hx
    simp [RootedTree.listChildIdsWithLvl] at hx
  | succ f ih =>
    intro id lvl x hx
    unfold RootedTree.listChildIdsWithLvl at hx
    by_cases h0 : lvl = some 0
    · rw [if_pos h0] at hx
      simp at hx
    · rw [if_neg h0] at hx
      have hexpand : ∀ nd, nd ∈ t.storedNodes →
          x ∈ nd.child_ids.flatMap (fun c =>
            c :: t.listChildIdsWithLvl f c (lvl.map (fun l => l - 1))) →
          x ∈ t.keys := by
        intro nd hnd hxe
        rcases List.mem_flatMap.mp hxe with ⟨c, hcmem, hcx⟩
        rcases List.mem_cons.mp hcx with rfl | hrec
        · exact hc nd hnd x hcmem
        · exact ih c _ x hrec
      cases hr : t.root_node with
      | some r =>
        simp only [hr] at hx
        by_cases hrid : r.id = id
        · rw [if_pos hrid] at hx
          cases hlvl : lvl with
          | none =>
            subst hlvl
            simpa [RootedTree.keys] using hx
          | some l =>
            subst hlvl
            exact hexpand r (root_stored t r hr) hx
        · rw [if_neg hrid] at hx
          cases hg : alGet t.child_nodes id with
          | some nd =>
            simp only [hg] at hx
            exact hexpand nd (stored_of_alGet t id nd hg) hx
          | none =>
            simp only [hg] at hx
            simp at hx
      | none =>
        simp only [hr] at hx
        cases hg : alGet t.child_nodes id with
        | some nd =>
          simp only [hg] at hx
          exact hexpand nd (stored_of_alGet t id nd hg) hx
        | none =>
          simp only [hg] at hx
          simp at hx

theorem list_some_subset_none (t : RootedTree) (hc : t.ChildClosed) :
    ∀ fuel id n' x, x ∈ t.listChildIdsWithLvl fuel id (some n') →
      x ∈ t.listChildIdsWithLvl fuel id none := by
  intro fuel
  induction fuel with
  | zero =>
    intro id n' x hx
    simp [RootedTree.listChildIdsWithLvl] at hx
  | succ f ih =>
    intro id n' x hx
    by_cases h0 : n' = 0
    · subst h0
      unfold RootedTree.listChildIdsWithLvl at hx
      simp at hx
    · unfold RootedTree.listChildIdsWithLvl at hx ⊢
      rw [if_neg (by simpa using h0)] at hx
      rw [if_neg (by simp : ¬ (none : Option Nat) = some 0)]
      have hexpand : ∀ (nd : DNode),
          x ∈ nd.child_ids.flatMap (fun c =>
            c :: t.listChildIdsWithLvl f c ((some n').map (fun l => l - 1))) →
          x ∈ nd.child_ids.flatMap (fun c =>
            c :: t.listChildIdsWithLvl f c ((none : Option Nat).map
              (fun l => l - 1))) := by
        intro nd hxe
        rcases List.mem_flatMap.mp hxe with ⟨c, hcmem, hcx⟩
        refine List.mem_flatMap.mpr ⟨c, hcmem, ?_⟩
        rcases List.mem_cons.mp hcx with rfl | hrec
        · exact List.mem_cons_self _ _
        · exact List.mem_cons_of_mem _ (ih c (n' - 1) x hrec)
      cases hr : t.root_node with
      | some r =>
        simp only [hr] at hx ⊢
        by_cases hrid : r.id = id
        · rw [if_pos hrid] at hx ⊢
          show x ∈ t.keys
          rcases List.mem_flatMap.mp hx with ⟨c, hcmem, hcx⟩
          rcases List.mem_cons.mp hcx with rfl | hrec
          · exact hc r (root_stored t r hr) x hcmem
          · exact list_subset_keys t hc f c _ x hrec
        · rw [if_neg hrid] at hx ⊢
          cases hg : alGet t.child_nodes id with
          | some nd =>
            simp only [hg] at hx ⊢
            exact hexpand nd hx
          | none =>
            simp only [hg] at hx
            simp at hx
      | none =>
        simp only [hr] at hx ⊢
        cases hg : alGet t.child_nodes id with
        | some nd =>
          simp only [hg] at hx ⊢
          exact hexpand nd hx
        | none =>
          simp only [hg] at hx
          simp at hx

theorem list_lvl_mono (t : RootedTree) :
    ∀ fuel id m n' x, m ≤ n' → x ∈ t.listChildIdsWithLvl fuel id (some m) →
      x ∈ t.listChildIdsWithLvl fuel id (some n') := by
  intro fuel
  induction fuel with
  | zero =>
    intro id m n' x _ hx
    simp [RootedTree.listChildIdsWithLvl] at hx
  | succ f ih =>
    intro id m n' x hmn hx
    by_cases h0 : m = 0
    · subst h0
      unfold RootedTree.listChildIdsWithLvl at hx
      simp at hx
    · have hn0 : ¬ n' = 0 := by omega
      unfold RootedTree.listChildIdsWithLvl at hx ⊢
      rw [if_neg (by simpa using h0)] at hx
      rw [if_neg (by simpa using hn0)]
      have hexpand : ∀ (nd : DNode),
          x ∈ nd.child_ids.flatMap (fun c =>
            c :: t.listChildIdsWithLvl f c ((some m).map (fun l => l - 1))) →
          x ∈ nd.child_ids.flatMap (fun c =>
            c :: t.listChildIdsWithLvl f c ((some n').map (fun l => l - 1))) := by
        intro nd hxe
        rcases List.mem_flatMap.mp hxe with ⟨c, hcmem, hcx⟩
        refine List.mem_flatMap.mpr ⟨c, hcmem, ?_⟩
        rcases List.mem_cons.mp hcx with rfl | hrec
        · exact List.mem_cons_self _ _
        · exact List.mem_cons_of_mem _ (ih c (m - 1) (n' - 1) x (by omega) hrec)
      cases hr : t.root_node with
      | some r =>
        simp only [hr] at hx ⊢
        by_cases hrid : r.id = id
        · rw [if_pos hrid] at hx ⊢
          exact hexpand r hx
        · rw [if_neg hrid] at hx ⊢
          cases hg : alGet t.child_nodes id with
          | some nd =>
            simp only [hg] at hx ⊢
            exact hexpand nd hx
          | none =>
            simp only [hg] at hx
            simp at hx
      | none =>
        simp only [hr] at hx ⊢
        cases hg : alGet t.child_nodes id with
        | some nd =>
          simp only [hg] at hx ⊢
          exact hexpand nd hx
        | none =>
          simp only [hg] at hx
          simp at hx

theorem list_eq_of_height (t : RootedTree) (r : DNode)
    (hroot : t.root_node = some r)
    (hs : ∀ nd ∈ t.storedNodes, r.id ∉ nd.child_ids) :
    ∀ fuel id n', id ≠ r.id → t.heightBelow fuel id ≤ n' →
      t.listChildIdsWithLvl fuel id (some n') =
        t.listChildIdsWithLvl fuel id none := by
  intro fuel
  induction fuel with
  | zero =>
    intro id n' _ _
    rfl
  | succ f ih =>
    intro id n' hid hht
    have hid' : ¬ r.id = id := fun h => hid h.symm
    unfold RootedTree.listChildIdsWithLvl
    rw [if_neg (by simp : ¬ (none : Option Nat) = some 0)]
    simp only [hroot]
    rw [if_neg hid', if_neg hid']
    cases hg : alGet t.child_nodes id with
    | none =>
      simp only [hg]
      by_cases h0 : n' = 0 <;> simp [h0]
    | some nd =>
      simp only [hg]
      have hres : t.resolveNode id = some nd := by
        unfold RootedTree.resolveNode
        simp only [hroot]
        rw [if_neg hid']
        exact hg
      have hh : t.heightBelow (f + 1) id =
          nd.child_ids.foldr (fun c acc => max (1 + t.heightBelow f c) acc) 0 := by
        have hstep : t.heightBelow (f + 1) id =
            (match t.resolveNode id with
             | some n =>
               n.child_ids.foldr (fun c acc => max (1 + t.heightBelow f c) acc) 0
             | none => 0) := rfl
        rw [hstep, hres]
      rw [hh] at hht
      by_cases hnil : nd.child_ids = []
      · by_cases h0 : n' = 0 <;> simp [h0, hnil]
      · have h1 := foldr_height_pos (t.heightBelow f) nd.child_ids hnil
        have hn0 : ¬ n' = 0 := by omega
        rw [if_neg (by simpa using hn0)]
        apply flatMap_congr_mem
        intro c hcmem
        have hcne : c ≠ r.id :=
          fun he => hs nd (stored_of_alGet t id nd hg) (he ▸ hcmem)
        have hch : t.heightBelow f c ≤ n' - 1 := by
          have := le_foldr_height (t.heightBelow f) nd.child_ids c hcmem
          omega
        show c :: t.listChildIdsWithLvl f c (some (n' - 1)) =
          c :: t.listChildIdsWithLvl f c none
        rw [ih c (n' - 1) hcne hch]

/-- C7 counterexample: the store whose root `1` records the unresolved child
id `2` (built through the public interface) refutes the subset claim: `2` is
yielded by `descendant_ids(1, Some(1))` but `descendant_ids(1, None)` — which
for the root id short-circuits to the child-map key set — is empty. -/
theorem c7_descendants_counterexample :
    treeUnresolved.root_node = some ⟨1, none, [2]⟩ ∧
    2 ∈ treeUnresolved.listChildIdsWithLvl 10 1 (some 1) ∧
    treeUnresolved.listChildIdsWithLvl 10 1 none = [] := by
  decide

/-- C7 (amended): for every store satisfying the data-model invariants of §3
(a root is present, every recorded child id is a key of the child map, the
root's id is reused neither as a key nor as a recorded child id, and every
key is reachable from the root within the height bound), and every id present
in it: `descendant_ids(id, Some(0))` is empty; `descendant_ids(id, Some(n))`
is a subset of `descendant_ids(id, None)` for all `n`; and the two are equal
as sets once `n` is at least the tree depth below `id`. -/
theorem c7_descendants_amended (t : RootedTree) (r : DNode) (fuel id : Nat)
    (hroot : t.root_node = some r)
    (hclosed : t.ChildClosed)
    (hsep : t.RootSeparate r)
    (hreach : t.KeysReachable r fuel)
    (hid : id = r.id ∨ id ∈ t.keys) :
    t.listChildIdsWithLvl fuel id (some 0) = [] ∧
    (∀ n', ∀ x ∈ t.listChildIdsWithLvl fuel id (some n'),
       x ∈ t.listChildIdsWithLvl fuel id none) ∧
    (∀ n', t.heightBelow fuel id ≤ n' →
       (t.listChildIdsWithLvl fuel id (some n')).toFinset =
         (t.listChildIdsWithLvl fuel id none).toFinset) := by
  refine ⟨?_, ?_, ?_⟩
  · cases fuel with
    | zero => rfl
    | succ f => simp [RootedTree.listChildIdsWithLvl]
  · intro n' x hx
    exact list_some_subset_none t hclosed fuel id n' x hx
  · intro n' hht
    rcases hid with hid | hid
    · subst hid
      cases fuel with
      | zero => rfl
      | succ f =>
        have hkeysform : t.listChildIdsWithLvl (f + 1) r.id none = t.keys := by
          unfold RootedTree.listChildIdsWithLvl
          rw [if_neg (by simp : ¬ (none : Option Nat) = some 0)]
          simp [hroot]
        ext y
        simp only [List.mem_toFinset]
        constructor
        · intro hy
          rw [hkeysform]
          exact list_subset_keys t hclosed (f + 1) r.id (some n') y hy
        · intro hy
          rw [hkeysform] at hy
          have hy2 := hreach y hy
          exact list_lvl_mono t (f + 1) r.id
            (t.heightBelow (f + 1) r.id) n' y hht hy2
    · have hidne : id ≠ r.id := fun he => hsep.1 (he ▸ hid)
      rw [list_eq_of_height t r hroot hsep.2 fuel id n' hidne hht]

/-- C7 witness: the invariants and all three properties at the chain
`1 ← 2 ← 3`, from its root. -/
theorem c7_descendants_amended_witness :
    (chain3.root_node = some ⟨1, none, [2]⟩ ∧ chain3.ChildClosed ∧
     chain3.RootSeparate ⟨1, none, [2]⟩ ∧
     chain3.KeysReachable ⟨1, none, [2]⟩ 10) ∧
    (chain3.listChildIdsWithLvl 10 1 (some 0) = [] ∧
     (∀ n', ∀ x ∈ chain3.listChildIdsWithLvl 10 1 (some n'),
        x ∈ chain3.listChildIdsWithLvl 10 1 none) ∧
     (∀ n', chain3.heightBelow 10 1 ≤ n' →
        (chain3.listChildIdsWithLvl 10 1 (some n')).toFinset =
          (chain3.listChildIdsWithLvl 10 1 none).toFinset)) :=
  ⟨⟨by decide, by decide, by decide, by decide⟩,
   c7_descendants_amended chain3 ⟨1, none, [2]⟩ 10 1 (by decide) (by decide)
     (by decide) (by decide) (Or.inl rfl)⟩

end RootedTreeRs
